/-
Verification of util-linux lib/fileutils.c against its natural-language
specification.

The C functions are shallowly embedded as pure Lean functions.  Kernel and
libc calls (mkstemp, fcntl, dup, sendfile, read, write, mkdir, strtol, ...)
are modelled by explicit oracle/environment records fixing the outcome of
each call; hypotheses on those oracles express the documented kernel
contracts (for example, F_DUPFD_CLOEXEC returns a descriptor at or above
the requested floor, and a successful read at a non-EOF position moves at
least one byte).  Loops of the C code that need not terminate are embedded
with explicit fuel.  Machine integers are embedded as Nat/Int; bit masks
use Nat bitwise operations.
-/
import Mathlib

namespace Fileutils

/-! ### Platform constants (Linux ABI values) -/

/-- Value of the FD_CLOEXEC file-descriptor flag bit. -/
def FD_CLOEXEC : Nat := 1

/-- Value of the O_CLOEXEC open(2) flag (octal 02000000 on Linux).  Note this
is a different bit from FD_CLOEXEC. -/
def O_CLOEXEC : Nat := 524288

/-! ### Bit-mask helpers -/

/-- POSIX umask application: permission bits of the creation mask are removed
from the requested mode (mode & ~umask, restricted to the 0o7777 range). -/
def applyUmask (mode mask : Nat) : Nat := mode &&& (4095 ^^^ (mask &&& 4095))

/-! ### DescriptorDuplicator: dup_fd_cloexec

Embeds

    int dup_fd_cloexec(int oldfd, int lowfd)
    {
        int fd, flags, errno_save;
    #ifdef F_DUPFD_CLOEXEC
        fd = fcntl(oldfd, F_DUPFD_CLOEXEC, lowfd);
        if (fd >= 0) return fd;
    #endif
        fd = dup(oldfd);
        if (fd < 0) return fd;
        flags = fcntl(fd, F_GETFD);
        if (flags < 0) goto unwind;
        if (fcntl(fd, F_SETFD, flags | FD_CLOEXEC) < 0) goto unwind;
        return fd;
    unwind:
        errno_save = errno; close(fd); errno = errno_save;
        return -1;
    }

The result is `none` for every failure return (-1) and `some (fd, cloexec)`
on success, where `cloexec` is the close-on-exec state of the returned
descriptor.  The F_SETFD kernel semantics keeps only the FD_CLOEXEC bit of
its argument. -/

structure DupEnv where
  /-- F_DUPFD_CLOEXEC is available at compile time. -/
  hasDupCloexec : Bool
  /-- Result of fcntl(oldfd, F_DUPFD_CLOEXEC, lowfd); none models failure. -/
  dupfdCloexecRes : Option Int
  /-- Result of dup(oldfd); none models failure. -/
  dupRes : Option Int
  /-- fcntl(fd, F_GETFD) succeeds. -/
  getfdOk : Bool
  /-- File-descriptor flags F_GETFD reports on the fresh duplicate. -/
  dupOldFlags : Nat
  /-- fcntl(fd, F_SETFD, ...) succeeds. -/
  setfdOk : Bool

/-- The portion of dup_fd_cloexec from `fd = dup(oldfd);` on (the path taken
when F_DUPFD_CLOEXEC is unavailable or its fcntl failed). -/
def dup_fallback (env : DupEnv) : Option (Int × Bool) :=
  match env.dupRes with
  | none => none
  | some fd =>
    if env.getfdOk = false then none
    else if env.setfdOk = false then none
    else some (fd, ((env.dupOldFlags ||| FD_CLOEXEC) &&& FD_CLOEXEC) != 0)

def dup_fd_cloexec (env : DupEnv) (oldfd lowfd : Int) : Option (Int × Bool) :=
  match (if env.hasDupCloexec then env.dupfdCloexecRes else none) with
  | some fd => some (fd, true)
  | none => dup_fallback env

/-! ### TempFileFactory: mkstemp_cloexec and xmkstemp

Embeds

    int mkstemp_cloexec(char *template)
    {
    #ifdef HAVE_MKOSTEMP
        return mkostemp(template, O_RDWR|O_CREAT|O_EXCL|O_CLOEXEC);
    #else
        int fd, old_flags, errno_save;
        fd = mkstemp(template);
        if (fd < 0) return fd;
        old_flags = fcntl(fd, F_GETFD, 0);
        if (old_flags < 0) goto unwind;
        if (fcntl(fd, F_SETFD, old_flags | O_CLOEXEC) < 0) goto unwind;
        return fd;
    unwind:
        errno_save = errno; unlink(template); close(fd); errno = errno_save;
        return -1;
    #endif
    }

    int xmkstemp(char **tmpname, const char *dir, const char *prefix)
    {
        ...
        tmpenv = dir ? dir : getenv("TMPDIR");
        if (!tmpenv) tmpenv = _PATH_TMP;
        rc = asprintf(&localtmp, "%s/%s.XXXXXX", tmpenv, prefix);
        if (rc < 0) return -1;
        old_mode = umask(077);
        fd = mkstemp_cloexec(localtmp);
        umask(old_mode);
        if (fd == -1) { free(localtmp); localtmp = NULL; }
        *tmpname = localtmp;
        return fd;
    }

The transient process state tracked is: the set of filesystem entries made by
the call (path and permission bits), the fd close-on-exec flag table, the set
of open descriptor numbers, the process umask and errno.  mkstemp(3) creates
the file with its creation mode filtered through the process umask, and
returns a descriptor whose FD_CLOEXEC flag is clear; mkostemp(3) with
O_CLOEXEC makes the descriptor close-on-exec atomically.  F_SETFD keeps only
the FD_CLOEXEC bit of its argument. -/

structure TmpEnv where
  /-- HAVE_MKOSTEMP is defined (combined create-and-mark primitive). -/
  hasMkostemp : Bool
  /-- Successful mkostemp yields this descriptor; none models failure. -/
  mkostempRes : Option Nat
  mkostempErrno : Int
  /-- Successful mkstemp yields this descriptor; none models failure. -/
  mkstempRes : Option Nat
  mkstempErrno : Int
  getfdOk : Bool
  getfdErrno : Int
  setfdOk : Bool
  setfdErrno : Int
  /-- errno value unlink(2) leaves behind during the unwind (none: untouched). -/
  unlinkErrno : Option Int
  /-- errno value close(2) leaves behind during the unwind (none: untouched). -/
  closeErrno : Option Int
  /-- Creation mode the libc passes to open(2) inside mk(o)stemp. -/
  createMode : Nat
  asprintfOk : Bool
  /-- Random suffix the exclusive-create primitive substitutes for XXXXXX. -/
  sfx : String

structure SysSt where
  /-- Filesystem entries: path and permission bits. -/
  files : List (String × Nat)
  /-- Per-descriptor flag word (only the FD_CLOEXEC bit is meaningful). -/
  fdFlags : Nat → Nat
  /-- Currently open descriptor numbers. -/
  openFds : List Nat
  umask : Nat
  errno : Int

/-- Apply an optional errno clobber left behind by a cleanup syscall. -/
def setErrno (st : SysSt) (e : Option Int) : SysSt :=
  match e with
  | none => st
  | some v => { st with errno := v }

/-- State change of a successful mk(o)stemp call: the file appears with the
umask-filtered creation mode and the fresh descriptor is open with the given
flag word. -/
def createTmp (st : SysSt) (aname : String) (mode : Nat) (fd : Nat) (fl : Nat) : SysSt :=
  { st with
    files := (aname, applyUmask mode st.umask) :: st.files,
    openFds := fd :: st.openFds,
    fdFlags := fun g => if g = fd then fl else st.fdFlags g }

/-- The unwind label of mkstemp_cloexec: save errno, unlink the template,
close the descriptor, restore errno. -/
def tmpUnwind (env : TmpEnv) (st : SysSt) (aname : String) (fd : Nat) : SysSt :=
  let errnoSave := st.errno
  let st1 := setErrno { st with files := st.files.filter (fun p => p.1 != aname) } env.unlinkErrno
  let st2 := setErrno { st1 with openFds := st1.openFds.filter (fun g => g != fd) } env.closeErrno
  { st2 with errno := errnoSave }

def mkstemp_cloexec (env : TmpEnv) (aname : String) (st : SysSt) : Option Nat × SysSt :=
  if env.hasMkostemp then
    match env.mkostempRes with
    | some fd => (some fd, createTmp st aname env.createMode fd FD_CLOEXEC)
    | none => (none, { st with errno := env.mkostempErrno })
  else
    match env.mkstempRes with
    | none => (none, { st with errno := env.mkstempErrno })
    | some fd =>
      let st1 := createTmp st aname env.createMode fd 0
      if env.getfdOk = false then
        (none, tmpUnwind env { st1 with errno := env.getfdErrno } aname fd)
      else
        let oldFlags := st1.fdFlags fd
        if env.setfdOk = false then
          (none, tmpUnwind env { st1 with errno := env.setfdErrno } aname fd)
        else
          (some fd,
            { st1 with
              fdFlags := fun g =>
                if g = fd then (oldFlags ||| O_CLOEXEC) &&& FD_CLOEXEC else st1.fdFlags g })

/-- Directory resolution order of xmkstemp: explicit dir, else TMPDIR, else
_PATH_TMP ("/tmp"). -/
def tmpDirOf (dir tmpdirVar : Option String) : String :=
  match dir with
  | some d => d
  | none =>
    match tmpdirVar with
    | some t => t
    | none => "/tmp"

/-- Name of the file xmkstemp ends up creating: the asprintf template with
the random suffix substituted for XXXXXX. -/
def anameOf (env : TmpEnv) (dir tmpdirVar : Option String) (pfx : String) : String :=
  tmpDirOf dir tmpdirVar ++ "/" ++ pfx ++ "." ++ env.sfx

def xmkstemp (env : TmpEnv) (dir tmpdirVar : Option String) (pfx : String) (st : SysSt) :
    Option Nat × Option String × SysSt :=
  if env.asprintfOk = false then (none, none, st)
  else
    let aname := anameOf env dir tmpdirVar pfx
    let oldMode := st.umask
    let r := mkstemp_cloexec env aname { st with umask := 63 }
    let st2 := { r.2 with umask := oldMode }
    match r.1 with
    | none => (none, none, st2)
    | some f => (some f, some aname, st2)

/-! ### RecursiveDirectoryCreator: mkdir_p

Embeds

    int mkdir_p(const char *path, mode_t mode)
    {
        char *p, *dir;
        int rc = 0;
        if (!path || !*path) return -EINVAL;
        dir = p = strdup(path);
        if (!dir) return -ENOMEM;
        if (*p == '/') p++;
        while (p && *p) {
            char *e = strchr(p, '/');
            if (e) *e = '\x00';
            if (*p) {
                rc = mkdir(dir, mode);
                if (rc && errno != EEXIST) break;
                rc = 0;
            }
            if (!e) break;
            *e = '/';
            p = e + 1;
        }
        free(dir);
        return rc;
    }

The filesystem is a list of nodes keyed by (absolute?, normalized segment
list); the root directory and the current working directory implicitly
exist.  mkdir(2) fails with EEXIST (17) when the path already exists (as a
file of any type), with ENOTDIR (20) when the parent exists but is not a
directory, and with ENOENT (2) when the parent is missing; otherwise it
appends a directory node.  The character-level walk of the C loop is
embedded by splitting the path at every slash up front; the loop body then
consumes one raw (possibly empty) segment at a time, exactly as the
strchr/'\x00' walk does. -/

structure Node where
  abs : Bool
  segs : List String
  isDir : Bool
  mode : Nat
deriving DecidableEq, Repr

def lookupN (fs : List Node) (ab : Bool) (sg : List String) : Option Node :=
  fs.find? (fun n => n.abs == ab && n.segs == sg)

def mkdirSys (fs : List Node) (ab : Bool) (sg : List String) (mode : Nat) :
    Option Int × List Node :=
  match lookupN fs ab sg with
  | some _ => (some 17, fs)
  | none =>
    if sg.dropLast = [] then (none, fs ++ [⟨ab, sg, true, mode⟩])
    else
      match lookupN fs ab sg.dropLast with
      | some pn => if pn.isDir then (none, fs ++ [⟨ab, sg, true, mode⟩]) else (some 20, fs)
      | none => (some 2, fs)

/-- Split a character list at every '/': the list of raw (possibly empty)
segments, in order. -/
def splitSlashAux : List Char → List Char → List String
  | [], cur => [cur.asString]
  | c :: tl, cur =>
    if c = '/' then cur.asString :: splitSlashAux tl []
    else splitSlashAux tl (cur ++ [c])

def splitSlash (l : List Char) : List String := splitSlashAux l []

/-- The while loop of mkdir_p: `done` is the list of nonempty segments already
walked (the prefix of the copied path before the current position), and the
third argument is the list of raw segments still to walk.  Returns the C
return value, the errno at a breaking failure (none when no such failure),
and the final filesystem. -/
def mkdirP_go (mode : Nat) (ab : Bool) :
    List Node → List String → List String → Int × Option Int × List Node
  | fs, _, [] => (0, none, fs)
  | fs, done, seg :: rest =>
    if seg = "" then
      match rest with
      | [] => (0, none, fs)
      | _ :: _ => mkdirP_go mode ab fs done rest
    else
      match mkdirSys fs ab (done ++ [seg]) mode with
      | (some e, fs1) =>
        if e = 17 then
          match rest with
          | [] => (0, none, fs1)
          | _ :: _ => mkdirP_go mode ab fs1 (done ++ [seg]) rest
        else (-1, some e, fs1)
      | (none, fs1) =>
        match rest with
        | [] => (0, none, fs1)
        | _ :: _ => mkdirP_go mode ab fs1 (done ++ [seg]) rest

/-- The `if (*p == '/') p++;` step: skip one leading slash. -/
def stripLeadSlash (cs : List Char) : List Char :=
  if cs.head? == some '/' then cs.tail else cs

def mkdir_p (path : Option String) (mode : Nat) (allocOk : Bool) (fs : List Node) :
    Int × Option Int × List Node :=
  match path with
  | none => (-22, none, fs)
  | some s =>
    if s = "" then (-22, none, fs)
    else if allocOk = false then (-12, none, fs)
    else mkdirP_go mode (s.toList.head? == some '/') fs []
      (splitSlash (stripLeadSlash s.toList))

/-- A path (absolute flag and normalized segments) exists in the filesystem;
root and the working directory always exist. -/
def pexists (fs : List Node) (ab : Bool) (sg : List String) : Bool :=
  sg.isEmpty || (lookupN fs ab sg).isSome

/-- A path exists and is a directory. -/
def pisdir (fs : List Node) (ab : Bool) (sg : List String) : Bool :=
  sg.isEmpty ||
    (match lookupN fs ab sg with
     | some n => n.isDir
     | none => false)

/-- Whether a path string is absolute. -/
def pathAbs (s : String) : Bool := s.toList.head? == some '/'

/-- Normalized segment list of a path string: split at slashes, empty
segments dropped. -/
def pathSegs (s : String) : List String :=
  (splitSlash s.toList).filter (fun x => x != "")

/-! ### DescriptorSweeper: close_all_fds

Embeds

    void close_all_fds(const int exclude[], size_t exsz)
    {
        struct dirent *d;
        DIR *dir;
        dir = opendir(_PATH_PROC_FDDIR);
        if (dir) {
            while ((d = xreaddir(dir))) {
                char *end;
                int fd;
                errno = 0;
                fd = strtol(d->d_name, &end, 10);
                if (errno || end == d->d_name || !end || *end)
                    continue;
                if (dirfd(dir) == fd)
                    continue;
                if (in_set(fd, exclude, exsz))
                    continue;
                close(fd);
            }
            closedir(dir);
        } else {
            int fd, tbsz = get_fd_tabsize();
            for (fd = 0; fd < tbsz; fd++) {
                if (!in_set(fd, exclude, exsz))
                    close(fd);
            }
        }
    }

The observable effect is the list of descriptors passed to close(2), in
order.  strtol(name, &end, 10) is embedded faithfully: it skips leading
whitespace, accepts one optional sign, consumes a maximal digit run and
reports the stop position; it fails (errno ERANGE) outside the long range.
The combined acceptance test of the C code (no errno, at least one digit,
nothing after the digits) is `strtol10 = some v`.  The assignment
`int fd = strtol(...)` truncates the long to a 32-bit int (`wrap32`). -/

def isSpaceC (c : Char) : Bool :=
  c == ' ' || c == '\t' || c == '\n' || c == '\x0b' || c == '\x0c' || c == '\r'

/-- Maximal digit run: accumulated value, number of digits consumed, rest. -/
def digitsAcc : List Char → Nat → Nat → Nat × Nat × List Char
  | [], acc, cnt => (acc, cnt, [])
  | c :: cs, acc, cnt =>
    if c.isDigit then digitsAcc cs (acc * 10 + (c.toNat - 48)) (cnt + 1)
    else (acc, cnt, c :: cs)

def LONG_MAX : Int := 9223372036854775807

def LONG_MIN : Int := -9223372036854775808

/-- strtol(name, &end, 10) together with the acceptance test of the loop
body: some value iff errno stayed 0, at least one digit was consumed, and
the string was fully consumed. -/
def strtol10 (s : String) : Option Int :=
  let t := s.toList.dropWhile isSpaceC
  let sgn : Int := if t.head? == some '-' then -1 else 1
  let u := if t.head? == some '-' || t.head? == some '+' then t.tail else t
  let r := digitsAcc u 0 0
  if r.2.1 = 0 then none
  else if r.2.2 ≠ [] then none
  else if sgn * (r.1 : Int) < LONG_MIN ∨ LONG_MAX < sgn * (r.1 : Int) then none
  else some (sgn * (r.1 : Int))

/-- Truncation of a long value to a 32-bit int (two's complement). -/
def wrap32 (v : Int) : Int := (v + 2147483648) % 4294967296 - 2147483648

def in_set (x : Int) : List Int → Bool
  | [] => false
  | y :: tl => if y = x then true else in_set x tl

/-- One loop-body step: the descriptor closed for one directory entry, if
any. -/
def sweepEntry (dfd : Int) (exclude : List Int) (nm : String) : Option Int :=
  match strtol10 nm with
  | none => none
  | some v =>
    let fd := wrap32 v
    if fd = dfd then none
    else if in_set fd exclude then none
    else some fd

/-- The descriptors closed by close_all_fds, in order.  The first argument is
the result of opendir(_PATH_PROC_FDDIR): the enumeration handle's descriptor
plus the entry names when it succeeds, none when it fails (fallback to a
get_fd_tabsize()-bounded scan). -/
def close_all_fds (dirents : Option (Int × List String)) (tabsize : Nat)
    (exclude : List Int) : List Int :=
  match dirents with
  | some (dfd, entries) => entries.filterMap (sweepEntry dfd exclude)
  | none =>
    (List.range tabsize).filterMap (fun fd =>
      if in_set (Int.ofNat fd) exclude then none else some (Int.ofNat fd))

/-- Modelled from the claim's wording, for comparison: a pure, fully-consumed
base-10 digit string (nonempty, digits only). -/
def specPureDigit (s : String) : Bool :=
  !s.toList.isEmpty && s.toList.all (fun c => c.isDigit)

/-! ### FileCopier: copy_file_simple and ul_copy_file

Embeds

    static int copy_file_simple(int from, int to)
    {
        ssize_t nr, nw, off;
        char buf[8 * 1024];
        while ((nr = read(from, buf, sizeof(buf))) > 0)
            for (off = 0; nr > 0; nr -= nw, off += nw)
                if ((nw = write(to, buf + off, nr)) < 0)
                    return -2;
        if (nr < 0)
            return -1;
        return 0;
    }

    int ul_copy_file(int from, int to)
    {
    #ifdef HAVE_SENDFILE
        struct stat st;
        ssize_t nw;
        off_t left;
        if (fstat(from, &st) == -1)
            return -1;
        if (!S_ISREG(st.st_mode))
            return copy_file_simple(from, to);
        for (left = st.st_size; left != 0; left -= nw) {
            if ((nw = sendfile(to, from, NULL, left)) < 0)
                return copy_file_simple(from, to);
            if (!nw)
                return 0;
        }
        while ((nw = sendfile(to, from, NULL, 1024*1024)) != 0)
            if (nw < 0)
                return copy_file_simple(from, to);
        return 0;
    #else
        return copy_file_simple(from, to);
    #endif
    }

The source descriptor's remaining bytes are a list; the destination is the
list of bytes written so far.  read/write/sendfile outcomes are oracles
indexed by a per-call counter: an oracle `ok n` caps the transfer at n, the
kernel further caps it at the requested count and the bytes available, so
the actual count moved is min n (min requested available); `err` is a failed
call.  The C loops need not terminate (a write(2) that keeps returning 0
spins forever), so the embedding is fueled: `fuelOut` is the result of
running out of fuel and corresponds to non-termination of the C loop.
The explicit_bzero buffer scrub has no observable effect in this model. -/

inductive RRes where
  | err : RRes
  | ok : Nat → RRes
deriving DecidableEq, Repr

inductive WRes where
  | err : WRes
  | ok : Nat → WRes
deriving DecidableEq, Repr

inductive SRes where
  | err : SRes
  | ok : Nat → SRes
deriving DecidableEq, Repr

inductive FlushRes where
  | fuelOut : FlushRes
  | werr : FlushRes
  | done : List Nat → Nat → FlushRes
deriving DecidableEq, Repr

inductive CRes where
  | fuelOut : CRes
  | rerr : CRes
  | werr : CRes
  | done : List Nat → CRes
deriving DecidableEq, Repr

/-- The inner for loop of copy_file_simple: flush one read chunk with
repeated writes; `wi` is the write-call counter.  A write of 0 bytes leaves
the chunk unchanged — the C loop spins (fuelOut). -/
def flushChunk (wrs : Nat → WRes) : Nat → Nat → List Nat → List Nat → FlushRes
  | _, wi, [], dst => .done dst wi
  | 0, _, _ :: _, _ => .fuelOut
  | fuel + 1, wi, c :: tl, dst =>
    match wrs wi with
    | .err => .werr
    | .ok n =>
      let nw := min n (c :: tl).length
      flushChunk wrs fuel (wi + 1) (List.drop nw (c :: tl)) (dst ++ List.take nw (c :: tl))

/-- The while loop of copy_file_simple: read up to 8192 bytes, flush the
chunk, repeat until read returns 0 (EOF, result 0 = done) or fails
(result -1 = rerr); a write failure gives -2 = werr. -/
def copy_file_simple (rds : Nat → RRes) (wrs : Nat → WRes) :
    Nat → Nat → Nat → List Nat → List Nat → CRes
  | 0, _, _, _, _ => .fuelOut
  | fuel + 1, ri, wi, src, dst =>
    match rds ri with
    | .err => .rerr
    | .ok n =>
      let nr := min n (min 8192 src.length)
      if nr = 0 then .done dst
      else
        match flushChunk wrs (fuel + 1) wi (List.take nr src) dst with
        | .fuelOut => .fuelOut
        | .werr => .werr
        | .done dst' wi' => copy_file_simple rds wrs fuel (ri + 1) wi' (List.drop nr src) dst'

/-- The post-size drain loop of ul_copy_file: sendfile capped at 1 MiB per
call until it reports 0; a failure falls back to copy_file_simple from the
current positions. -/
def sfDrain (sfs : Nat → SRes) (rds : Nat → RRes) (wrs : Nat → WRes) :
    Nat → Nat → Nat → Nat → List Nat → List Nat → CRes
  | 0, _, _, _, _, _ => .fuelOut
  | fuel + 1, si, ri, wi, src, dst =>
    match sfs si with
    | .err => copy_file_simple rds wrs fuel ri wi src dst
    | .ok n =>
      let t := min n (min 1048576 src.length)
      if t = 0 then .done dst
      else sfDrain sfs rds wrs fuel (si + 1) ri wi (List.drop t src) (dst ++ List.take t src)

/-- The size-bounded sendfile loop of ul_copy_file: `left` is the
remaining-bytes counter seeded from st.st_size; a sendfile of 0 bytes with
the counter still positive returns success immediately; a failure falls back
to copy_file_simple from the current positions. -/
def sfLoop (sfs : Nat → SRes) (rds : Nat → RRes) (wrs : Nat → WRes) :
    Nat → Nat → Nat → Nat → Nat → List Nat → List Nat → CRes
  | 0, _, _, _, _, _, _ => .fuelOut
  | fuel + 1, si, ri, wi, left, src, dst =>
    if left = 0 then sfDrain sfs rds wrs fuel si ri wi src dst
    else
      match sfs si with
      | .err => copy_file_simple rds wrs fuel ri wi src dst
      | .ok n =>
        let t := min n (min left src.length)
        if t = 0 then .done dst
        else sfLoop sfs rds wrs fuel (si + 1) ri wi (left - t) (List.drop t src)
          (dst ++ List.take t src)

/-- ul_copy_file.  `fstatRes` is the fstat outcome: none = failure, otherwise
the S_ISREG bit and st_size.  Without HAVE_SENDFILE the function is
copy_file_simple. -/
def ul_copy_file (hasSendfile : Bool) (fstatRes : Option (Bool × Nat))
    (sfs : Nat → SRes) (rds : Nat → RRes) (wrs : Nat → WRes)
    (fuel : Nat) (src dst : List Nat) : CRes :=
  if hasSendfile then
    match fstatRes with
    | none => .rerr
    | some (isReg, sz) =>
      if isReg then sfLoop sfs rds wrs fuel 0 0 0 sz src dst
      else copy_file_simple rds wrs fuel 0 0 src dst
  else copy_file_simple rds wrs fuel 0 0 src dst

/-! ### Theorems -/

theorem testBit_of_land_eq_zero {a b : Nat} (h : a &&& b = 0) (i : Nat) :
    a.testBit i = false ∨ b.testBit i = false := by
  by_contra hc
  push_neg at hc
  have ha : a.testBit i = true := by
    cases h1 : a.testBit i with
    | false => exact absurd h1 hc.1
    | true => rfl
  have hb : b.testBit i = true := by
    cases h1 : b.testBit i with
    | false => exact absurd h1 hc.2
    | true => rfl
  have : (a &&& b).testBit i = true := by
    rw [Nat.testBit_and, ha, hb]; rfl
  rw [h, Nat.zero_testBit] at this
  exact Bool.false_ne_true this

/-- Masking with two disjoint masks in sequence yields zero. -/
theorem land_land_eq_zero (a m n : Nat) (h : m &&& n = 0) : a &&& m &&& n = 0 := by
  apply Nat.eq_of_testBit_eq
  intro i
  rw [Nat.testBit_and, Nat.testBit_and, Nat.zero_testBit]
  rcases testBit_of_land_eq_zero h i with hm | hn
  · rw [hm]; simp
  · rw [hn]; simp

/-- Setting a one-bit mask with an OR keeps it set under an AND with the same
mask. -/
theorem lor_land_self (f m : Nat) : (f ||| m) &&& m = m := by
  apply Nat.eq_of_testBit_eq
  intro i
  rw [Nat.testBit_and, Nat.testBit_or]
  cases hm : m.testBit i <;> simp [hm]

/-- C1 as stated is false: on the fallback path (no F_DUPFD_CLOEXEC, or the
combined fcntl failed), the code duplicates with plain dup(2), which returns
the lowest free descriptor with no relation to the floor.  Concretely, with
lowfd = 5, a successful call returns descriptor 0. -/
theorem C1_counterexample :
    dup_fd_cloexec ⟨false, none, some 0, true, 0, true⟩ 7 5 = some (0, true) ∧
      ¬ (5 ≤ (0 : Int)) := by
  constructor
  · rfl
  · decide

theorem dup_fallback_spec (env : DupEnv)
    (Hdup : ∀ fd, env.dupRes = some fd → 0 ≤ fd)
    (fd : Int) (cx : Bool) (h : dup_fallback env = some (fd, cx)) :
    cx = true ∧ env.dupRes = some fd ∧ 0 ≤ fd := by
  unfold dup_fallback at h
  cases hres : env.dupRes with
  | none => rw [hres] at h; exact absurd h (by simp)
  | some f0 =>
    rw [hres] at h
    dsimp only at h
    by_cases hg : env.getfdOk = false
    · rw [if_pos hg] at h; exact absurd h (by simp)
    · rw [if_neg hg] at h
      by_cases hs : env.setfdOk = false
      · rw [if_pos hs] at h; exact absurd h (by simp)
      · rw [if_neg hs] at h
        simp only [Option.some.injEq, Prod.mk.injEq] at h
        refine ⟨?_, by rw [h.1], h.1 ▸ Hdup f0 hres⟩
        rw [← h.2]
        have hb : (env.dupOldFlags ||| FD_CLOEXEC) &&& FD_CLOEXEC = FD_CLOEXEC :=
          lor_land_self env.dupOldFlags FD_CLOEXEC
        rw [hb]
        rfl

/-- C1 amended: a successful dup_fd_cloexec call returns a descriptor at or
above the floor lowfd whenever the result was produced by the combined
F_DUPFD_CLOEXEC primitive; when produced by the dup(2) fallback the result is
only guaranteed to be a valid (non-negative) descriptor and may lie below
lowfd.  In both cases the returned descriptor has close-on-exec set.
The two kernel-contract hypotheses state that F_DUPFD_CLOEXEC honours the
floor and that dup returns a non-negative descriptor. -/
theorem C1_amended (env : DupEnv) (oldfd lowfd : Int)
    (Hcx : ∀ fd, env.dupfdCloexecRes = some fd → lowfd ≤ fd)
    (Hdup : ∀ fd, env.dupRes = some fd → 0 ≤ fd)
    (fd : Int) (cx : Bool)
    (h : dup_fd_cloexec env oldfd lowfd = some (fd, cx)) :
    cx = true ∧
      ((env.hasDupCloexec = true ∧ env.dupfdCloexecRes = some fd ∧ lowfd ≤ fd) ∨
        (env.dupRes = some fd ∧ 0 ≤ fd)) := by
  unfold dup_fd_cloexec at h
  cases hcap : env.hasDupCloexec with
  | true =>
    rw [hcap] at h
    simp only [if_true] at h
    cases hres : env.dupfdCloexecRes with
    | some f0 =>
      rw [hres] at h
      simp only [Option.some.injEq, Prod.mk.injEq] at h
      refine ⟨h.2.symm, Or.inl ⟨rfl, ?_, ?_⟩⟩
      · rw [h.1]
      · exact h.1 ▸ Hcx f0 hres
    | none =>
      rw [hres] at h
      dsimp only at h
      rcases dup_fallback_spec env Hdup fd cx h with ⟨h1, h2, h3⟩
      exact ⟨h1, Or.inr ⟨h2, h3⟩⟩
  | false =>
    rw [hcap] at h
    rw [if_neg (by decide)] at h
    dsimp only at h
    rcases dup_fallback_spec env Hdup fd cx h with ⟨h1, h2, h3⟩
    exact ⟨h1, Or.inr ⟨h2, h3⟩⟩

/-- Witness for C1_amended at a concrete environment: the combined primitive
succeeds returning descriptor 6 with floor 5. -/
theorem C1_amended_witness :
    (true : Bool) = true ∧
      ((true = true ∧ (some 6 : Option Int) = some 6 ∧ (5 : Int) ≤ 6) ∨
        ((none : Option Int) = some 6 ∧ (0 : Int) ≤ 6)) :=
  C1_amended ⟨true, some 6, none, true, 0, true⟩ 7 5
    (fun fd hfd => by injection hfd with h; rw [← h]; decide)
    (fun fd hfd => Option.noConfusion hfd)
    6 true rfl

/-- C2 is a code bug: on the fallback path (no HAVE_MKOSTEMP) the code passes
old_flags | O_CLOEXEC to fcntl(F_SETFD), but F_SETFD honours only the
FD_CLOEXEC bit (value 1), which O_CLOEXEC (an open(2) flag, value 0o2000000)
does not contain.  Evaluating the model on the ordinary fallback input
(mkstemp succeeds with descriptor 5 whose flag word is 0, both fcntl calls
succeed) shows the call succeeds yet leaves the descriptor inheritable:
its FD_CLOEXEC bit is still 0. -/
theorem C2_code_bug :
    (mkstemp_cloexec
        ⟨false, none, 0, some 5, 0, true, 0, true, 0, none, none, 384, true, "abc123"⟩
        "/tmp/test.abc123"
        ⟨[], fun _ => 0, [], 18, 0⟩).1 = some 5 ∧
      ((mkstemp_cloexec
          ⟨false, none, 0, some 5, 0, true, 0, true, 0, none, none, 384, true, "abc123"⟩
          "/tmp/test.abc123"
          ⟨[], fun _ => 0, [], 18, 0⟩).2.fdFlags 5) &&& FD_CLOEXEC = 0 := by
  constructor
  · rfl
  · decide

theorem setErrno_files (st : SysSt) (e : Option Int) : (setErrno st e).files = st.files := by
  cases e <;> rfl

theorem setErrno_openFds (st : SysSt) (e : Option Int) :
    (setErrno st e).openFds = st.openFds := by
  cases e <;> rfl

theorem setErrno_umask (st : SysSt) (e : Option Int) : (setErrno st e).umask = st.umask := by
  cases e <;> rfl

theorem tmpUnwind_files (env : TmpEnv) (st : SysSt) (aname : String) (fd : Nat) :
    (tmpUnwind env st aname fd).files = st.files.filter (fun p => p.1 != aname) := by
  simp [tmpUnwind, setErrno_files]

theorem tmpUnwind_openFds (env : TmpEnv) (st : SysSt) (aname : String) (fd : Nat) :
    (tmpUnwind env st aname fd).openFds = st.openFds.filter (fun g => g != fd) := by
  simp [tmpUnwind, setErrno_openFds, setErrno_files]

theorem tmpUnwind_umask (env : TmpEnv) (st : SysSt) (aname : String) (fd : Nat) :
    (tmpUnwind env st aname fd).umask = st.umask := by
  simp [tmpUnwind, setErrno_umask]

theorem tmpUnwind_errno (env : TmpEnv) (st : SysSt) (aname : String) (fd : Nat) :
    (tmpUnwind env st aname fd).errno = st.errno := by
  simp [tmpUnwind]

theorem filter_str_ne_of_not_mem (files : List (String × Nat)) (aname : String)
    (hfile : ∀ m, (aname, m) ∉ files) :
    files.filter (fun p => p.1 != aname) = files := by
  apply List.filter_eq_self.mpr
  intro p hp
  rw [bne_iff_ne]
  intro he
  exact hfile p.2 (by rw [← he, Prod.mk.eta]; exact hp)

theorem filter_nat_ne_of_not_mem (l : List Nat) (fd : Nat) (h : fd ∉ l) :
    l.filter (fun g => g != fd) = l := by
  apply List.filter_eq_self.mpr
  intro g hg
  rw [bne_iff_ne]
  intro he
  exact h (he ▸ hg)

/-- On every failure return of mkstemp_cloexec the filesystem, the open
descriptor set and the umask are exactly as before the call, and errno holds
the error code of the call that failed (not a value left by the cleanup
unlink/close). -/
theorem mkstemp_cloexec_fail (env : TmpEnv) (aname : String) (st : SysSt)
    (hfile : ∀ m, (aname, m) ∉ st.files)
    (hfd : ∀ fd, env.mkstempRes = some fd → fd ∉ st.openFds)
    (st' : SysSt) (h : mkstemp_cloexec env aname st = (none, st')) :
    st'.files = st.files ∧ st'.openFds = st.openFds ∧ st'.umask = st.umask ∧
      st'.errno = (if env.hasMkostemp then env.mkostempErrno
        else if env.mkstempRes = none then env.mkstempErrno
        else if env.getfdOk = false then env.getfdErrno
        else env.setfdErrno) := by
  unfold mkstemp_cloexec at h
  cases hcap : env.hasMkostemp with
  | true =>
    rw [hcap, if_pos rfl] at h
    cases hres : env.mkostempRes with
    | some fd => rw [hres] at h; exact absurd h (by simp)
    | none =>
      rw [hres] at h
      dsimp only at h
      injection h with h1 h2
      subst h2
      exact ⟨rfl, rfl, rfl, rfl⟩
  | false =>
    rw [hcap, if_neg (by decide)] at h
    cases hres : env.mkstempRes with
    | none =>
      rw [hres] at h
      dsimp only at h
      injection h with h1 h2
      subst h2
      refine ⟨rfl, rfl, rfl, ?_⟩
      simp
    | some fd =>
      rw [hres] at h
      dsimp only at h
      have hfd' : fd ∉ st.openFds := hfd fd hres
      by_cases hg : env.getfdOk = false
      · rw [if_pos hg] at h
        injection h with h1 h2
        subst h2
        refine ⟨?_, ?_, ?_, ?_⟩
        · rw [tmpUnwind_files]
          show ((aname, applyUmask env.createMode st.umask) :: st.files).filter
              (fun p => p.1 != aname) = st.files
          rw [List.filter_cons]
          simp only [bne_self_eq_false]
          rw [if_neg (by decide)]
          exact filter_str_ne_of_not_mem st.files aname hfile
        · rw [tmpUnwind_openFds]
          show (fd :: st.openFds).filter (fun g => g != fd) = st.openFds
          rw [List.filter_cons]
          simp only [bne_self_eq_false]
          rw [if_neg (by decide)]
          exact filter_nat_ne_of_not_mem st.openFds fd hfd'
        · rw [tmpUnwind_umask]; rfl
        · rw [tmpUnwind_errno]; simp [hg]
      · rw [if_neg hg] at h
        by_cases hs : env.setfdOk = false
        · rw [if_pos hs] at h
          injection h with h1 h2
          subst h2
          refine ⟨?_, ?_, ?_, ?_⟩
          · rw [tmpUnwind_files]
            show ((aname, applyUmask env.createMode st.umask) :: st.files).filter
                (fun p => p.1 != aname) = st.files
            rw [List.filter_cons]
            simp only [bne_self_eq_false]
            rw [if_neg (by decide)]
            exact filter_str_ne_of_not_mem st.files aname hfile
          · rw [tmpUnwind_openFds]
            show (fd :: st.openFds).filter (fun g => g != fd) = st.openFds
            rw [List.filter_cons]
            simp only [bne_self_eq_false]
            rw [if_neg (by decide)]
            exact filter_nat_ne_of_not_mem st.openFds fd hfd'
          · rw [tmpUnwind_umask]; rfl
          · rw [tmpUnwind_errno]; simp [hg, hs]
        · rw [if_neg hs] at h
          exact absurd h (by simp)

/-- C3: on every failure path of xmkstemp no new filesystem entry remains (the
filesystem is exactly as before the call), the temporary descriptor is closed
(the open-descriptor set is unchanged), the returned name is null, and errno
holds the error code observed at the point of failure, preserved across the
cleanup unlink/close (whose errno clobber values never leak through).
Hypotheses: the exclusive-create primitive picks a name and a descriptor that
are fresh. -/
theorem C3_no_orphan_on_failure (env : TmpEnv) (dir tmpdirVar : Option String)
    (pfx : String) (st : SysSt)
    (hfile : ∀ m, (anameOf env dir tmpdirVar pfx, m) ∉ st.files)
    (hfd : ∀ fd, env.mkstempRes = some fd → fd ∉ st.openFds)
    (tn : Option String) (st' : SysSt)
    (h : xmkstemp env dir tmpdirVar pfx st = (none, tn, st')) :
    tn = none ∧ st'.files = st.files ∧ st'.openFds = st.openFds ∧
      st'.errno = (if env.asprintfOk = false then st.errno
        else if env.hasMkostemp then env.mkostempErrno
        else if env.mkstempRes = none then env.mkstempErrno
        else if env.getfdOk = false then env.getfdErrno
        else env.setfdErrno) := by
  unfold xmkstemp at h
  by_cases ha : env.asprintfOk = false
  · rw [if_pos ha] at h
    injection h with h1 h2
    injection h2 with h2 h3
    subst h3
    exact ⟨h2.symm, rfl, rfl, by rw [if_pos ha]⟩
  · rw [if_neg ha] at h
    dsimp only at h
    rcases hr : mkstemp_cloexec env (anameOf env dir tmpdirVar pfx) { st with umask := 63 }
      with ⟨fd0, stm⟩
    rw [hr] at h
    cases fd0 with
    | some f => exact absurd h (by simp)
    | none =>
      dsimp only at h
      injection h with h1 h2
      injection h2 with h2 h3
      subst h3
      have hm := mkstemp_cloexec_fail env (anameOf env dir tmpdirVar pfx)
        { st with umask := 63 } hfile hfd stm hr
      refine ⟨h2.symm, hm.1, hm.2.1, ?_⟩
      rw [if_neg ha]
      exact hm.2.2.2

/-- Witness for C3 at a concrete input: no HAVE_MKOSTEMP, mkstemp succeeds
with descriptor 4, the F_SETFD marking step fails with errno 9, and the
cleanup unlink/close clobber errno with 2 and 13; the call reports failure,
leaves no file, closes the descriptor, and errno is 9. -/
theorem C3_witness :
    (xmkstemp ⟨false, none, 0, some 4, 0, true, 0, false, 9, some 2, some 13, 384, true, "s"⟩
        none none "t" ⟨[], fun _ => 0, [], 18, 0⟩).2.2.errno = 9 := by
  have h := C3_no_orphan_on_failure
    ⟨false, none, 0, some 4, 0, true, 0, false, 9, some 2, some 13, 384, true, "s"⟩
    none none "t" ⟨[], fun _ => 0, [], 18, 0⟩
    (fun m hm => (List.not_mem_nil _) hm)
    (fun fd _ => List.not_mem_nil fd)
    (xmkstemp ⟨false, none, 0, some 4, 0, true, 0, false, 9, some 2, some 13, 384, true, "s"⟩
        none none "t" ⟨[], fun _ => 0, [], 18, 0⟩).2.1
    (xmkstemp ⟨false, none, 0, some 4, 0, true, 0, false, 9, some 2, some 13, 384, true, "s"⟩
        none none "t" ⟨[], fun _ => 0, [], 18, 0⟩).2.2
    rfl
  rw [h.2.2.2]
  decide

/-- A successful mkstemp_cloexec call has created the file, with its mode
filtered through the process umask at creation time. -/
theorem mkstemp_cloexec_created (env : TmpEnv) (aname : String) (st : SysSt)
    (fd : Nat) (st' : SysSt) (h : mkstemp_cloexec env aname st = (some fd, st')) :
    (aname, applyUmask env.createMode st.umask) ∈ st'.files := by
  unfold mkstemp_cloexec at h
  cases hcap : env.hasMkostemp with
  | true =>
    rw [hcap, if_pos rfl] at h
    cases hres : env.mkostempRes with
    | none => rw [hres] at h; exact absurd h (by simp)
    | some f0 =>
      rw [hres] at h
      dsimp only at h
      injection h with h1 h2
      subst h2
      exact List.mem_cons_self _ _
  | false =>
    rw [hcap, if_neg (by decide)] at h
    cases hres : env.mkstempRes with
    | none => rw [hres] at h; exact absurd h (by simp)
    | some f0 =>
      rw [hres] at h
      dsimp only at h
      by_cases hg : env.getfdOk = false
      · rw [if_pos hg] at h; exact absurd h (by simp)
      · rw [if_neg hg] at h
        by_cases hs : env.setfdOk = false
        · rw [if_pos hs] at h; exact absurd h (by simp)
        · rw [if_neg hs] at h
          injection h with h1 h2
          subst h2
          exact List.mem_cons_self _ _

theorem applyUmask_owner_only (m : Nat) : applyUmask m 63 &&& 63 = 0 := by
  have h : (4095 ^^^ (63 &&& 4095) : Nat) = 4032 := by decide
  unfold applyUmask
  rw [h]
  exact land_land_eq_zero m 4032 63 (by decide)

/-- C6: xmkstemp narrows the process umask to 0o77 around the creation call
and restores the caller's umask on every exit path (asprintf failure,
creation failure, success); when the call succeeds, the created file's
permission bits went through the 0o77 mask, so they contain no group or
other bits (owner-only access). -/
theorem C6_scoped_umask (env : TmpEnv) (dir tmpdirVar : Option String)
    (pfx : String) (st : SysSt) :
    (xmkstemp env dir tmpdirVar pfx st).2.2.umask = st.umask ∧
      (∀ f tn st', xmkstemp env dir tmpdirVar pfx st = (some f, tn, st') →
        (anameOf env dir tmpdirVar pfx, applyUmask env.createMode 63) ∈ st'.files ∧
          applyUmask env.createMode 63 &&& 63 = 0) := by
  constructor
  · unfold xmkstemp
    by_cases ha : env.asprintfOk = false
    · rw [if_pos ha]
    · rw [if_neg ha]
      dsimp only
      rcases hr : (mkstemp_cloexec env (anameOf env dir tmpdirVar pfx)
        { st with umask := 63 }).1 with _ | f <;> rfl
  · intro f tn st' h
    unfold xmkstemp at h
    by_cases ha : env.asprintfOk = false
    · rw [if_pos ha] at h
      exact absurd h (by simp)
    · rw [if_neg ha] at h
      dsimp only at h
      rcases hr : mkstemp_cloexec env (anameOf env dir tmpdirVar pfx)
        { st with umask := 63 } with ⟨fd0, stm⟩
      rw [hr] at h
      cases fd0 with
      | none => exact absurd h (by simp)
      | some f0 =>
        dsimp only at h
        injection h with h1 h2
        injection h2 with h2 h3
        subst h3
        constructor
        · show _ ∈ ({ stm with umask := st.umask } : SysSt).files
          have := mkstemp_cloexec_created env (anameOf env dir tmpdirVar pfx)
            { st with umask := 63 } f0 stm hr
          exact this
        · exact applyUmask_owner_only env.createMode

/-- Witness for C6 at a concrete input: the combined mkostemp primitive
succeeds with descriptor 3 and libc creation mode 0o600; the umask is
restored to 18 and the created file is present with owner-only bits. -/
theorem C6_witness :
    (xmkstemp ⟨true, some 3, 0, none, 0, true, 0, true, 0, none, none, 384, true, "s"⟩
        none none "t" ⟨[], fun _ => 0, [], 18, 0⟩).2.2.umask = 18 ∧
      ((anameOf ⟨true, some 3, 0, none, 0, true, 0, true, 0, none, none, 384, true, "s"⟩
          none none "t", applyUmask 384 63) ∈
        (xmkstemp ⟨true, some 3, 0, none, 0, true, 0, true, 0, none, none, 384, true, "s"⟩
          none none "t" ⟨[], fun _ => 0, [], 18, 0⟩).2.2.files ∧
        applyUmask 384 63 &&& 63 = 0) := by
  have h := C6_scoped_umask
    ⟨true, some 3, 0, none, 0, true, 0, true, 0, none, none, 384, true, "s"⟩
    none none "t" ⟨[], fun _ => 0, [], 18, 0⟩
  refine ⟨h.1, h.2 3
    (xmkstemp ⟨true, some 3, 0, none, 0, true, 0, true, 0, none, none, 384, true, "s"⟩
        none none "t" ⟨[], fun _ => 0, [], 18, 0⟩).2.1
    (xmkstemp ⟨true, some 3, 0, none, 0, true, 0, true, 0, none, none, 384, true, "s"⟩
        none none "t" ⟨[], fun _ => 0, [], 18, 0⟩).2.2
    rfl⟩

theorem mkdirSys_fail (fs : List Node) (ab : Bool) (sg : List String) (mode : Nat)
    (e : Int) (fs1 : List Node) (h : mkdirSys fs ab sg mode = (some e, fs1)) :
    fs1 = fs := by
  unfold mkdirSys at h
  cases hl : lookupN fs ab sg with
  | some n => rw [hl] at h; dsimp only at h; injection h with h1 h2; exact h2.symm
  | none =>
    rw [hl] at h
    dsimp only at h
    by_cases hd : sg.dropLast = []
    · rw [if_pos hd] at h; exact absurd h (by simp)
    · rw [if_neg hd] at h
      cases hp : lookupN fs ab sg.dropLast with
      | some pn =>
        rw [hp] at h
        dsimp only at h
        by_cases hdir : pn.isDir
        · rw [if_pos hdir] at h; exact absurd h (by simp)
        · rw [if_neg hdir] at h; injection h with h1 h2; exact h2.symm
      | none => rw [hp] at h; injection h with h1 h2; exact h2.symm

theorem mkdirSys_eexist (fs : List Node) (ab : Bool) (sg : List String) (mode : Nat)
    (fs1 : List Node) (h : mkdirSys fs ab sg mode = (some 17, fs1)) :
    (lookupN fs ab sg).isSome = true := by
  unfold mkdirSys at h
  cases hl : lookupN fs ab sg with
  | some n => rfl
  | none =>
    rw [hl] at h
    dsimp only at h
    by_cases hd : sg.dropLast = []
    · rw [if_pos hd] at h; exact absurd h (by simp)
    · rw [if_neg hd] at h
      cases hp : lookupN fs ab sg.dropLast with
      | some pn =>
        rw [hp] at h
        dsimp only at h
        by_cases hdir : pn.isDir
        · rw [if_pos hdir] at h; exact absurd h (by simp)
        · rw [if_neg hdir] at h; injection h with h1 h2; exact absurd h1.symm (by decide)
      | none => rw [hp] at h; injection h with h1 h2; exact absurd h1.symm (by decide)

theorem mkdirSys_ok (fs : List Node) (ab : Bool) (sg : List String) (mode : Nat)
    (fs1 : List Node) (h : mkdirSys fs ab sg mode = (none, fs1)) :
    fs1 = fs ++ [⟨ab, sg, true, mode⟩] := by
  unfold mkdirSys at h
  cases hl : lookupN fs ab sg with
  | some n => rw [hl] at h; exact absurd h (by simp)
  | none =>
    rw [hl] at h
    dsimp only at h
    by_cases hd : sg.dropLast = []
    · rw [if_pos hd] at h; injection h with h1 h2; exact h2.symm
    · rw [if_neg hd] at h
      cases hp : lookupN fs ab sg.dropLast with
      | some pn =>
        rw [hp] at h
        dsimp only at h
        by_cases hdir : pn.isDir
        · rw [if_pos hdir] at h; injection h with h1 h2; exact h2.symm
        · rw [if_neg hdir] at h; exact absurd h (by simp)
      | none => rw [hp] at h; exact absurd h (by simp)

/-- mkdir only ever appends nodes, and every appended node is a directory:
the walk never removes or changes anything (no rollback). -/
theorem mkdirP_go_grow (mode : Nat) (ab : Bool) :
    ∀ (segs : List String) (fs : List Node) (done : List String)
      (rc : Int) (eo : Option Int) (fs' : List Node),
      mkdirP_go mode ab fs done segs = (rc, eo, fs') →
      ∃ add, fs' = fs ++ add ∧ ∀ n ∈ add, n.isDir = true := by
  intro segs
  induction segs with
  | nil =>
    intro fs done rc eo fs' h
    injection h with h1 h2
    injection h2 with h2 h3
    exact ⟨[], by rw [← h3, List.append_nil], by simp⟩
  | cons seg rest ih =>
    intro fs done rc eo fs' h
    unfold mkdirP_go at h
    by_cases hseg : seg = ""
    · rw [if_pos hseg] at h
      cases rest with
      | nil =>
        injection h with h1 h2
        injection h2 with h2 h3
        exact ⟨[], by rw [← h3, List.append_nil], by simp⟩
      | cons r rs => exact ih fs done rc eo fs' h
    · rw [if_neg hseg] at h
      rcases hm : mkdirSys fs ab (done ++ [seg]) mode with ⟨e0, fs1⟩
      rw [hm] at h
      cases e0 with
      | some e =>
        dsimp only at h
        have hfs1 := mkdirSys_fail fs ab (done ++ [seg]) mode e fs1 hm
        by_cases he : e = 17
        · rw [if_pos he] at h
          cases rest with
          | nil =>
            injection h with h1 h2
            injection h2 with h2 h3
            exact ⟨[], by rw [← h3, hfs1, List.append_nil], by simp⟩
          | cons r rs =>
            rcases ih fs1 (done ++ [seg]) rc eo fs' h with ⟨add, ha1, ha2⟩
            exact ⟨add, by rw [ha1, hfs1], ha2⟩
        · rw [if_neg he] at h
          injection h with h1 h2
          injection h2 with h2 h3
          exact ⟨[], by rw [← h3, hfs1, List.append_nil], by simp⟩
      | none =>
        dsimp only at h
        have hfs1 := mkdirSys_ok fs ab (done ++ [seg]) mode fs1 hm
        cases rest with
        | nil =>
          injection h with h1 h2
          injection h2 with h2 h3
          refine ⟨[⟨ab, done ++ [seg], true, mode⟩], by rw [← h3, hfs1], ?_⟩
          intro n hn
          rcases List.mem_singleton.mp hn with rfl
          rfl
        | cons r rs =>
          rcases ih fs1 (done ++ [seg]) rc eo fs' h with ⟨add, ha1, ha2⟩
          refine ⟨⟨ab, done ++ [seg], true, mode⟩ :: add, ?_, ?_⟩
          · rw [ha1, hfs1, List.append_assoc]
            rfl
          · intro n hn
            rcases List.mem_cons.mp hn with rfl | hn2
            · rfl
            · exact ha2 n hn2

/-- The walk halts with an errno only on a creation failure other than
EEXIST, and then the C return value is -1 (the raw mkdir return). -/
theorem mkdirP_go_halt (mode : Nat) (ab : Bool) :
    ∀ (segs : List String) (fs : List Node) (done : List String)
      (rc : Int) (e : Int) (fs' : List Node),
      mkdirP_go mode ab fs done segs = (rc, some e, fs') →
      rc = -1 ∧ e ≠ 17 := by
  intro segs
  induction segs with
  | nil =>
    intro fs done rc e fs' h
    injection h with h1 h2
    injection h2 with h2 h3
    exact absurd h2.symm (by simp)
  | cons seg rest ih =>
    intro fs done rc e fs' h
    unfold mkdirP_go at h
    by_cases hseg : seg = ""
    · rw [if_pos hseg] at h
      cases rest with
      | nil =>
        injection h with h1 h2
        injection h2 with h2 h3
        exact absurd h2.symm (by simp)
      | cons r rs => exact ih fs done rc e fs' h
    · rw [if_neg hseg] at h
      rcases hm : mkdirSys fs ab (done ++ [seg]) mode with ⟨e0, fs1⟩
      rw [hm] at h
      cases e0 with
      | some e1 =>
        dsimp only at h
        by_cases he : e1 = 17
        · rw [if_pos he] at h
          cases rest with
          | nil =>
            injection h with h1 h2
            injection h2 with h2 h3
            exact absurd h2.symm (by simp)
          | cons r rs => exact ih fs1 (done ++ [seg]) rc e fs' h
        · rw [if_neg he] at h
          injection h with h1 h2
          injection h2 with h2 h3
          injection h2 with h2
          exact ⟨h1.symm, h2 ▸ he⟩
      | none =>
        dsimp only at h
        cases rest with
        | nil =>
          injection h with h1 h2
          injection h2 with h2 h3
          exact absurd h2.symm (by simp)
        | cons r rs => exact ih fs1 (done ++ [seg]) rc e fs' h

theorem lookupN_append_self (fs : List Node) (ab : Bool) (sg : List String)
    (d : Bool) (m : Nat) :
    (lookupN (fs ++ [⟨ab, sg, d, m⟩]) ab sg).isSome = true := by
  unfold lookupN
  rw [List.find?_append]
  cases hf : fs.find? (fun n => n.abs == ab && n.segs == sg) with
  | some n => rfl
  | none =>
    have h2 : List.find? (fun n => n.abs == ab && n.segs == sg)
        [(⟨ab, sg, d, m⟩ : Node)] = some ⟨ab, sg, d, m⟩ := by
      simp [List.find?]
    rw [h2]
    rfl

theorem pexists_mono_append (fs add : List Node) (ab : Bool) (sg : List String)
    (h : pexists fs ab sg = true) : pexists (fs ++ add) ab sg = true := by
  cases hse : sg.isEmpty with
  | true => unfold pexists; rw [hse]; rfl
  | false =>
    unfold pexists at h ⊢
    rw [hse] at h ⊢
    simp only [Bool.false_or] at h ⊢
    unfold lookupN at h ⊢
    rw [List.find?_append]
    cases hf : fs.find? (fun n => n.abs == ab && n.segs == sg) with
    | some n => rfl
    | none => rw [hf] at h; exact absurd h (by simp)

/-- After a successful walk, the accumulated path extended by the remaining
nonempty segments exists in the final filesystem. -/
theorem mkdirP_go_exists (mode : Nat) (ab : Bool) :
    ∀ (segs : List String) (fs : List Node) (done : List String)
      (eo : Option Int) (fs' : List Node),
      pexists fs ab done = true →
      mkdirP_go mode ab fs done segs = (0, eo, fs') →
      pexists fs' ab (done ++ segs.filter (fun x => x != "")) = true := by
  intro segs
  induction segs with
  | nil =>
    intro fs done eo fs' hdone h
    injection h with h1 h2
    injection h2 with h2 h3
    rw [← h3, List.filter_nil, List.append_nil]
    exact hdone
  | cons seg rest ih =>
    intro fs done eo fs' hdone h
    unfold mkdirP_go at h
    by_cases hseg : seg = ""
    · rw [if_pos hseg] at h
      have hfilter : (seg :: rest).filter (fun x => x != "") =
          rest.filter (fun x => x != "") := by
        rw [List.filter_cons, hseg]
        simp
      rw [hfilter]
      cases rest with
      | nil =>
        injection h with h1 h2
        injection h2 with h2 h3
        rw [← h3, List.filter_nil, List.append_nil]
        exact hdone
      | cons r rs => exact ih fs done eo fs' hdone h
    · rw [if_neg hseg] at h
      have hfilter : (seg :: rest).filter (fun x => x != "") =
          seg :: rest.filter (fun x => x != "") := by
        rw [List.filter_cons]
        simp [hseg]
      rw [hfilter, List.append_cons]
      rcases hm : mkdirSys fs ab (done ++ [seg]) mode with ⟨e0, fs1⟩
      rw [hm] at h
      cases e0 with
      | some e =>
        dsimp only at h
        by_cases he : e = 17
        · rw [if_pos he] at h
          have hfs1 := mkdirSys_fail fs ab (done ++ [seg]) mode e fs1 hm
          have hex : pexists fs1 ab (done ++ [seg]) = true := by
            rw [hfs1]
            unfold pexists
            rw [mkdirSys_eexist fs ab (done ++ [seg]) mode fs1 (he ▸ hm)]
            simp
          cases rest with
          | nil =>
            injection h with h1 h2
            injection h2 with h2 h3
            rw [← h3, List.filter_nil, List.append_nil]
            exact hex
          | cons r rs => exact ih fs1 (done ++ [seg]) eo fs' hex h
        · rw [if_neg he] at h
          injection h with h1 h2
          exact absurd h1.symm (by decide)
      | none =>
        dsimp only at h
        have hfs1 := mkdirSys_ok fs ab (done ++ [seg]) mode fs1 hm
        have hex : pexists fs1 ab (done ++ [seg]) = true := by
          rw [hfs1]
          unfold pexists
          rw [lookupN_append_self]
          simp
        cases rest with
        | nil =>
          injection h with h1 h2
          injection h2 with h2 h3
          rw [← h3, List.filter_nil, List.append_nil]
          exact hex
        | cons r rs => exact ih fs1 (done ++ [seg]) eo fs' hex h

theorem splitSlash_slash (tl : List Char) : splitSlash ('/' :: tl) = "" :: splitSlash tl := by
  show splitSlashAux ('/' :: tl) [] = "" :: splitSlashAux tl []
  simp only [splitSlashAux]
  rw [if_pos trivial]
  rfl

/-- Skipping one leading slash does not change the normalized segments. -/
theorem filter_splitSlash_strip (cs : List Char) :
    (splitSlash (stripLeadSlash cs)).filter (fun x => x != "") =
      (splitSlash cs).filter (fun x => x != "") := by
  cases cs with
  | nil => rfl
  | cons c tl =>
    by_cases hc : c = '/'
    · subst hc
      have h1 : stripLeadSlash ('/' :: tl) = tl := rfl
      rw [h1, splitSlash_slash, List.filter_cons]
      simp
    · have h1 : stripLeadSlash (c :: tl) = c :: tl := by
        simp [stripLeadSlash, hc]
      rw [h1]

/-- A pre-existing entry found in the extension part of an append-only
filesystem update is a directory. -/
theorem fresh_entry_is_dir (fs add : List Node) (ab : Bool) (sg : List String)
    (hadd : ∀ n ∈ add, n.isDir = true)
    (hnew : pexists fs ab sg = false)
    (hex : pexists (fs ++ add) ab sg = true) :
    pisdir (fs ++ add) ab sg = true := by
  have hse : sg.isEmpty = false := by
    cases h0 : sg.isEmpty
    · rfl
    · unfold pexists at hnew
      simp [h0] at hnew
  have hfs : lookupN fs ab sg = none := by
    unfold pexists at hnew
    rw [hse, Bool.false_or] at hnew
    cases hl : lookupN fs ab sg
    · rfl
    · simp [hl] at hnew
  have hn2 : ∃ n, lookupN (fs ++ add) ab sg = some n := by
    unfold pexists at hex
    rw [hse, Bool.false_or] at hex
    exact Option.isSome_iff_exists.mp hex
  rcases hn2 with ⟨n, hn⟩
  have hn' := hn
  unfold lookupN at hn'
  rw [List.find?_append] at hn'
  have hfs' := hfs
  unfold lookupN at hfs'
  rw [hfs'] at hn'
  have hfind : add.find? (fun m => m.abs == ab && m.segs == sg) = some n := hn'
  have hmem : n ∈ add := List.mem_of_find?_eq_some hfind
  unfold pisdir
  rw [hse]
  simp only [Bool.false_or]
  rw [hn]
  exact hadd n hmem

/-- C4 as stated is false: mkdir_p accepts an EEXIST failure on any segment,
including the final one, without checking that the existing entry is a
directory.  With "/a" present as a regular file, mkdir_p("/a", mode) returns
success (0) while "/a" is not a directory and the filesystem is unchanged. -/
theorem C4_counterexample :
    (mkdir_p (some "/a") 511 true [⟨true, ["a"], false, 0⟩]).1 = 0 ∧
      pisdir [⟨true, ["a"], false, 0⟩] (pathAbs "/a") (pathSegs "/a") = false ∧
      (mkdir_p (some "/a") 511 true [⟨true, ["a"], false, 0⟩]).2.2 =
        [⟨true, ["a"], false, 0⟩] := by
  refine ⟨?_, ?_, ?_⟩ <;> decide

/-- C4 amended: when mkdir_p returns success the full path exists in the
final filesystem, and it is moreover a directory whenever it did not already
exist before the call (a pre-existing final segment is accepted via EEXIST
without a type check, so only in that case may the "directory" part fail).
The second conjunct keeps the concrete scenario of the claim: for "/a/b/c"
with "/a" an existing regular file, the call fails (-1) rather than silently
succeeding. -/
theorem C4_amended :
    (∀ (s : String) (mode : Nat) (fs : List Node) (rc : Int) (eo : Option Int)
        (fs' : List Node),
      mkdir_p (some s) mode true fs = (rc, eo, fs') → rc = 0 →
      pexists fs' (pathAbs s) (pathSegs s) = true ∧
        (pexists fs (pathAbs s) (pathSegs s) = false →
          pisdir fs' (pathAbs s) (pathSegs s) = true)) ∧
    (mkdir_p (some "/a/b/c") 511 true [⟨true, ["a"], false, 0⟩]).1 = -1 := by
  constructor
  · intro s mode fs rc eo fs' h hrc
    subst hrc
    by_cases hs : s = ""
    · rw [hs] at h
      unfold mkdir_p at h
      dsimp only at h
      rw [if_pos rfl] at h
      injection h with h1 h2
      exact absurd h1.symm (by decide)
    · unfold mkdir_p at h
      dsimp only at h
      rw [if_neg hs, if_neg (show ¬(true = false) by decide)] at h
      have h1 := mkdirP_go_exists mode (s.toList.head? == some '/')
        (splitSlash (stripLeadSlash s.toList)) fs [] eo fs' rfl h
      rw [List.nil_append] at h1
      have hseq : pathSegs s =
          (splitSlash (stripLeadSlash s.toList)).filter (fun x => x != "") :=
        (filter_splitSlash_strip s.toList).symm
      constructor
      · rw [hseq]
        exact h1
      · intro hnew
        rcases mkdirP_go_grow mode (s.toList.head? == some '/')
          (splitSlash (stripLeadSlash s.toList)) fs [] 0 eo fs' h with ⟨add, ha1, ha2⟩
        have hex : pexists (fs ++ add) (pathAbs s) (pathSegs s) = true := by
          rw [← ha1, hseq]
          exact h1
        have hdir := fresh_entry_is_dir fs add (pathAbs s) (pathSegs s) ha2 hnew hex
        rw [ha1]
        exact hdir
  · decide

/-- Witness for C4_amended at a concrete input: creating "/d/e" in an empty
filesystem succeeds, the full path exists afterwards, and (being fresh) it is
a directory. -/
theorem C4_amended_witness :
    pexists (mkdir_p (some "/d/e") 493 true []).2.2 (pathAbs "/d/e") (pathSegs "/d/e") =
        true ∧
      (pexists [] (pathAbs "/d/e") (pathSegs "/d/e") = false →
        pisdir (mkdir_p (some "/d/e") 493 true []).2.2 (pathAbs "/d/e")
          (pathSegs "/d/e") = true) :=
  C4_amended.1 "/d/e" 493 [] (mkdir_p (some "/d/e") 493 true []).1
    (mkdir_p (some "/d/e") 493 true []).2.1 (mkdir_p (some "/d/e") 493 true []).2.2
    rfl (by decide)

/-- C8: mkdir_p returns -EINVAL (-22) for an absent or empty path, -ENOMEM
(-12) when copying the path fails, halts with an errno only for a creation
failure other than EEXIST (an already-exists failure on any segment is
treated as non-error and the walk continues), returning the raw mkdir value
-1 in that case, and never rolls anything back: the final filesystem always
extends the initial one, every added node being a directory. -/
theorem C8_error_handling :
    (∀ (mode : Nat) (a : Bool) (fs : List Node),
        mkdir_p none mode a fs = (-22, none, fs)) ∧
    (∀ (mode : Nat) (a : Bool) (fs : List Node),
        mkdir_p (some "") mode a fs = (-22, none, fs)) ∧
    (∀ (s : String) (mode : Nat) (fs : List Node), s ≠ "" →
        mkdir_p (some s) mode false fs = (-12, none, fs)) ∧
    (∀ (p : Option String) (mode : Nat) (a : Bool) (fs : List Node)
        (rc e : Int) (fs' : List Node),
        mkdir_p p mode a fs = (rc, some e, fs') → rc = -1 ∧ e ≠ 17) ∧
    (∀ (p : Option String) (mode : Nat) (a : Bool) (fs : List Node)
        (rc : Int) (eo : Option Int) (fs' : List Node),
        mkdir_p p mode a fs = (rc, eo, fs') →
        ∃ add, fs' = fs ++ add ∧ ∀ n ∈ add, n.isDir = true) := by
  refine ⟨?_, ?_, ?_, ?_, ?_⟩
  · intro mode a fs
    rfl
  · intro mode a fs
    unfold mkdir_p
    dsimp only
    rw [if_pos rfl]
  · intro s mode fs hs
    unfold mkdir_p
    dsimp only
    rw [if_neg hs, if_pos rfl]
  · intro p mode a fs rc e fs' h
    cases p with
    | none =>
      injection h with h1 h2
      injection h2 with h2 h3
      exact absurd h2.symm (by simp)
    | some s =>
      unfold mkdir_p at h
      dsimp only at h
      by_cases hs : s = ""
      · rw [if_pos hs] at h
        injection h with h1 h2
        injection h2 with h2 h3
        exact absurd h2.symm (by simp)
      · rw [if_neg hs] at h
        by_cases ha : a = false
        · rw [if_pos ha] at h
          injection h with h1 h2
          injection h2 with h2 h3
          exact absurd h2.symm (by simp)
        · rw [if_neg ha] at h
          exact mkdirP_go_halt mode (s.toList.head? == some '/')
            (splitSlash (stripLeadSlash s.toList)) fs [] rc e fs' h
  · intro p mode a fs rc eo fs' h
    cases p with
    | none =>
      injection h with h1 h2
      injection h2 with h2 h3
      exact ⟨[], by rw [← h3, List.append_nil], by simp⟩
    | some s =>
      unfold mkdir_p at h
      dsimp only at h
      by_cases hs : s = ""
      · rw [if_pos hs] at h
        injection h with h1 h2
        injection h2 with h2 h3
        exact ⟨[], by rw [← h3, List.append_nil], by simp⟩
      · rw [if_neg hs] at h
        by_cases ha : a = false
        · rw [if_pos ha] at h
          injection h with h1 h2
          injection h2 with h2 h3
          exact ⟨[], by rw [← h3, List.append_nil], by simp⟩
        · rw [if_neg ha] at h
          exact mkdirP_go_grow mode (s.toList.head? == some '/')
            (splitSlash (stripLeadSlash s.toList)) fs [] rc eo fs' h

/-- Witness for C8 at a concrete input: "/a/b" with "/a" an existing regular
file fails at segment "b" with ENOTDIR (20), which is not EEXIST, and the
return value is the raw mkdir result -1. -/
theorem C8_witness : (-1 : Int) = -1 ∧ (20 : Int) ≠ 17 :=
  C8_error_handling.2.2.2.1 (some "/a/b") 511 true [⟨true, ["a"], false, 0⟩]
    (-1) 20 [⟨true, ["a"], false, 0⟩] (by decide)

/-- C7 as stated is false in the only-if direction: strtol also accepts
names with leading whitespace or a sign.  The entry "+5" is not a pure digit
string, yet the sweep closes descriptor 5 for it. -/
theorem C7_counterexample :
    close_all_fds (some (3, ["+5"])) 0 [] = [5] ∧ specPureDigit "+5" = false := by
  constructor <;> decide

theorem in_set_iff (x : Int) (l : List Int) : in_set x l = true ↔ x ∈ l := by
  induction l with
  | nil => simp [in_set]
  | cons y tl ih =>
    unfold in_set
    by_cases h : y = x
    · subst h
      simp
    · rw [if_neg h, ih]
      constructor
      · exact fun hm => List.mem_cons_of_mem y hm
      · intro hm
        rcases List.mem_cons.mp hm with rfl | hm2
        · exact absurd rfl h
        · exact hm2

theorem sweepEntry_eq_some (dfd : Int) (ex : List Int) (nm : String) (fd : Int) :
    sweepEntry dfd ex nm = some fd ↔
      ∃ v, strtol10 nm = some v ∧ wrap32 v = fd ∧ fd ≠ dfd ∧ in_set fd ex = false := by
  unfold sweepEntry
  cases hv : strtol10 nm with
  | none =>
    constructor
    · intro h
      cases h
    · rintro ⟨v, hv', h2, h3, h4⟩
      exact Option.noConfusion hv'
  | some v =>
    dsimp only
    constructor
    · intro h
      by_cases h1 : wrap32 v = dfd
      · rw [if_pos h1] at h
        cases h
      · rw [if_neg h1] at h
        cases h2 : in_set (wrap32 v) ex with
        | true =>
          rw [if_pos h2] at h
          cases h
        | false =>
          rw [if_neg (by rw [h2]; decide)] at h
          injection h with h
          exact ⟨v, rfl, h, by rw [← h]; exact h1, by rw [← h]; exact h2⟩
    · rintro ⟨v', hv', hw, hne, hns⟩
      have hvv : v' = v := (Option.some.inj hv').symm
      subst hvv
      rw [if_neg (by rw [hw]; exact hne), if_neg (by rw [hw, hns]; decide), hw]

theorem wrap32_small (v : Int) (h0 : 0 ≤ v) (h1 : v < 2147483648) : wrap32 v = v := by
  unfold wrap32
  have h2 : (v + 2147483648) % 4294967296 = v + 2147483648 :=
    Int.emod_eq_of_lt (by omega) (by omega)
  omega

theorem digit_not_space (c : Char) (h : c.isDigit = true) : isSpaceC c = false := by
  cases hsp : isSpaceC c with
  | false => rfl
  | true =>
    simp only [isSpaceC, Bool.or_eq_true, beq_iff_eq] at hsp
    rcases hsp with ((((rfl | rfl) | rfl) | rfl) | rfl) | rfl <;> exact absurd h (by decide)

theorem digit_ne (c : Char) (d : Char) (hd : d.isDigit = false) (h : c.isDigit = true) :
    (c == d) = false := by
  cases he : (c == d) with
  | false => rfl
  | true =>
    have : c = d := eq_of_beq he
    rw [this] at h
    rw [h] at hd
    cases hd

/-- On an all-digit list the digit run consumes everything. -/
theorem digitsAcc_all_digits (l : List Char) :
    ∀ acc cnt, (∀ c ∈ l, c.isDigit = true) →
      (digitsAcc l acc cnt).2.2 = [] ∧ (digitsAcc l acc cnt).2.1 = cnt + l.length := by
  induction l with
  | nil =>
    intro acc cnt h
    exact ⟨rfl, by simp [digitsAcc]⟩
  | cons c tl ih =>
    intro acc cnt h
    unfold digitsAcc
    rw [if_pos (h c (List.mem_cons_self c tl))]
    rcases ih (acc * 10 + (c.toNat - 48)) (cnt + 1)
      (fun d hd => h d (List.mem_cons_of_mem c hd)) with ⟨h1, h2⟩
    refine ⟨h1, ?_⟩
    rw [h2]
    simp only [List.length_cons]
    omega

/-- A nonempty all-digit name parses under strtol to its decimal value
(provided the value is in range). -/
theorem strtol10_pure (nm : String) (hp : specPureDigit nm = true)
    (v : Nat) (hval : (digitsAcc nm.toList 0 0).1 = v) (hlt : v < 2147483648) :
    strtol10 nm = some (v : Int) := by
  have hne : nm.toList ≠ [] := by
    intro hx
    unfold specPureDigit at hp
    rw [hx] at hp
    cases hp
  have hall : ∀ c ∈ nm.toList, c.isDigit = true := by
    intro c hc
    unfold specPureDigit at hp
    rw [Bool.and_eq_true] at hp
    exact List.all_eq_true.mp hp.2 c hc
  rcases hl : nm.toList with _ | ⟨c, tl⟩
  · exact absurd hl hne
  have hcd : c.isDigit = true := hall c (hl ▸ List.mem_cons_self c tl)
  have hdrop : (c :: tl).dropWhile isSpaceC = c :: tl := by
    rw [List.dropWhile_cons, digit_not_space c hcd]
    simp
  have hminus : ((c :: tl).head? == some '-') = false :=
    digit_ne c '-' (by decide) hcd
  have hplus : ((c :: tl).head? == some '+') = false :=
    digit_ne c '+' (by decide) hcd
  rcases digitsAcc_all_digits (c :: tl) 0 0 (hl ▸ hall) with ⟨h1, h2⟩
  have hv' : (digitsAcc (c :: tl) 0 0).1 = v := by rw [← hval, hl]
  unfold strtol10
  rw [hl, hdrop]
  dsimp only
  rw [hminus, hplus]
  rw [if_neg (show ¬(false = true) by decide)]
  rw [if_neg (show ¬((false || false) = true) by decide)]
  rw [if_neg (show ¬((digitsAcc (c :: tl) 0 0).2.1 = 0) by rw [h2]; simp)]
  rw [if_neg (show ¬((digitsAcc (c :: tl) 0 0).2.2 ≠ []) by rw [h1]; simp)]
  rw [if_neg ?hc]
  case hc =>
    rw [hv']
    simp only [one_mul]
    unfold LONG_MIN LONG_MAX
    push_neg
    constructor
    · omega
    · omega
  rw [hv']
  simp

/-- C7 amended: in the enumeration path, a descriptor fd is closed iff some
entry name is fully consumed by strtol base 10 (which, beyond pure digit
strings, also accepts optional leading whitespace and one sign) with a value
in the long range whose int truncation is fd, and fd is neither the
enumeration handle's descriptor nor in the exclusion set.  In particular
every pure, fully-consumed digit string with value below 2^31 that is not
the enumeration descriptor and not excluded is closed, as the claim says;
the correction is only that sign- or whitespace-prefixed names (e.g. "+5")
are accepted as well. -/
theorem C7_amended :
    (∀ (entries : List String) (dfd : Int) (ex : List Int) (fd : Int),
      fd ∈ close_all_fds (some (dfd, entries)) 0 ex ↔
        ∃ nm ∈ entries, ∃ v, strtol10 nm = some v ∧ wrap32 v = fd ∧
          fd ≠ dfd ∧ in_set fd ex = false) ∧
    (∀ (entries : List String) (dfd : Int) (ex : List Int) (nm : String) (v : Nat),
      nm ∈ entries → specPureDigit nm = true → (digitsAcc nm.toList 0 0).1 = v →
      v < 2147483648 → (v : Int) ≠ dfd → in_set (v : Int) ex = false →
      (v : Int) ∈ close_all_fds (some (dfd, entries)) 0 ex) := by
  have hchar : ∀ (entries : List String) (dfd : Int) (ex : List Int) (fd : Int),
      fd ∈ close_all_fds (some (dfd, entries)) 0 ex ↔
        ∃ nm ∈ entries, ∃ v, strtol10 nm = some v ∧ wrap32 v = fd ∧
          fd ≠ dfd ∧ in_set fd ex = false := by
    intro entries dfd ex fd
    unfold close_all_fds
    rw [List.mem_filterMap]
    constructor
    · rintro ⟨nm, hnm, hf⟩
      exact ⟨nm, hnm, (sweepEntry_eq_some dfd ex nm fd).mp hf⟩
    · rintro ⟨nm, hnm, hrest⟩
      exact ⟨nm, hnm, (sweepEntry_eq_some dfd ex nm fd).mpr hrest⟩
  refine ⟨hchar, ?_⟩
  intro entries dfd ex nm v hmem hp hval hlt hne hns
  exact (hchar entries dfd ex (v : Int)).mpr
    ⟨nm, hmem, (v : Int), strtol10_pure nm hp v hval hlt,
      wrap32_small (v : Int) (by omega) (by omega), hne, hns⟩

/-- Witness for C7_amended at a concrete input: among entries ["7", "x"]
with enumeration descriptor 3 and exclusion set [0], the pure digit entry
"7" leads to descriptor 7 being closed. -/
theorem C7_amended_witness :
    ((7 : Nat) : Int) ∈ close_all_fds (some (3, ["7", "x"])) 0 [0] :=
  C7_amended.2 ["7", "x"] 3 [0] "7" 7 (by decide) (by decide) (by decide)
    (by decide) (by decide) (by decide)

/-- A flushed chunk lands on the destination whole: the short-write retry
loop appends exactly the chunk before returning. -/
theorem flushChunk_done (wrs : Nat → WRes) :
    ∀ (fuel wi : Nat) (chunk dst dst' : List Nat) (wi' : Nat),
      flushChunk wrs fuel wi chunk dst = .done dst' wi' → dst' = dst ++ chunk := by
  intro fuel
  induction fuel with
  | zero =>
    intro wi chunk dst dst' wi' h
    cases chunk with
    | nil =>
      simp only [flushChunk] at h
      injection h with h1 h2
      rw [← h1, List.append_nil]
    | cons c tl =>
      simp only [flushChunk] at h
      exact FlushRes.noConfusion h
  | succ fuel ih =>
    intro wi chunk dst dst' wi' h
    cases chunk with
    | nil =>
      simp only [flushChunk] at h
      injection h with h1 h2
      rw [← h1, List.append_nil]
    | cons c tl =>
      simp only [flushChunk] at h
      cases hw : wrs wi with
      | err => rw [hw] at h; cases h
      | ok n =>
        rw [hw] at h
        dsimp only at h
        have h1 := ih (wi + 1) (List.drop (min n (c :: tl).length) (c :: tl))
          (dst ++ List.take (min n (c :: tl).length) (c :: tl)) dst' wi' h
        rw [h1, List.append_assoc, List.take_append_drop]

/-- Under the kernel contract that a successful read at a non-EOF position
moves at least one byte, a done result of the buffered loop means the whole
remaining source was appended to the destination. -/
theorem copy_file_simple_done (rds : Nat → RRes) (wrs : Nat → WRes)
    (Hr : ∀ i n, rds i = .ok n → 0 < n) :
    ∀ (fuel ri wi : Nat) (src dst dst' : List Nat),
      copy_file_simple rds wrs fuel ri wi src dst = .done dst' → dst' = dst ++ src := by
  intro fuel
  induction fuel with
  | zero =>
    intro ri wi src dst dst' h
    simp only [copy_file_simple] at h
    exact CRes.noConfusion h
  | succ fuel ih =>
    intro ri wi src dst dst' h
    simp only [copy_file_simple] at h
    cases hr : rds ri with
    | err => rw [hr] at h; cases h
    | ok n =>
      rw [hr] at h
      dsimp only at h
      by_cases hz : min n (min 8192 src.length) = 0
      · rw [if_pos hz] at h
        injection h with h
        have hn := Hr ri n hr
        have hlen : src.length = 0 := by
          rcases Nat.min_eq_zero_iff.mp hz with h0 | h0
          · omega
          · rcases Nat.min_eq_zero_iff.mp h0 with h1 | h1
            · omega
            · exact h1
        rw [List.length_eq_zero.mp hlen, List.append_nil, h]
      · rw [if_neg hz] at h
        cases hf : flushChunk wrs (fuel + 1) wi
            (List.take (min n (min 8192 src.length)) src) dst with
        | fuelOut => rw [hf] at h; cases h
        | werr => rw [hf] at h; cases h
        | done dst1 wi1 =>
          rw [hf] at h
          dsimp only at h
          have h1 := flushChunk_done wrs (fuel + 1) wi _ dst dst1 wi1 hf
          have h2 := ih (ri + 1) wi1 (List.drop (min n (min 8192 src.length)) src) dst1 dst' h
          rw [h2, h1, List.append_assoc, List.take_append_drop]

/-- Under the same contracts for sendfile and read, a done result of the
drain loop means the whole remaining source was transferred. -/
theorem sfDrain_done (sfs : Nat → SRes) (rds : Nat → RRes) (wrs : Nat → WRes)
    (Hs : ∀ i n, sfs i = .ok n → 0 < n)
    (Hr : ∀ i n, rds i = .ok n → 0 < n) :
    ∀ (fuel si ri wi : Nat) (src dst dst' : List Nat),
      sfDrain sfs rds wrs fuel si ri wi src dst = .done dst' → dst' = dst ++ src := by
  intro fuel
  induction fuel with
  | zero =>
    intro si ri wi src dst dst' h
    simp only [sfDrain] at h
    exact CRes.noConfusion h
  | succ fuel ih =>
    intro si ri wi src dst dst' h
    simp only [sfDrain] at h
    cases hs : sfs si with
    | err =>
      rw [hs] at h
      exact copy_file_simple_done rds wrs Hr fuel ri wi src dst dst' h
    | ok n =>
      rw [hs] at h
      dsimp only at h
      by_cases hz : min n (min 1048576 src.length) = 0
      · rw [if_pos hz] at h
        injection h with h
        have hn := Hs si n hs
        have hlen : src.length = 0 := by
          rcases Nat.min_eq_zero_iff.mp hz with h0 | h0
          · omega
          · rcases Nat.min_eq_zero_iff.mp h0 with h1 | h1
            · omega
            · exact h1
        rw [List.length_eq_zero.mp hlen, List.append_nil, h]
      · rw [if_neg hz] at h
        have h2 := ih (si + 1) ri wi (List.drop (min n (min 1048576 src.length)) src)
          (dst ++ List.take (min n (min 1048576 src.length)) src) dst' h
        rw [h2, List.append_assoc, List.take_append_drop]

/-- Under the same contracts, a done result of the size-bounded sendfile
loop means the whole remaining source was transferred, whatever the
(possibly stale) st_size seed of the counter was. -/
theorem sfLoop_done (sfs : Nat → SRes) (rds : Nat → RRes) (wrs : Nat → WRes)
    (Hs : ∀ i n, sfs i = .ok n → 0 < n)
    (Hr : ∀ i n, rds i = .ok n → 0 < n) :
    ∀ (fuel si ri wi left : Nat) (src dst dst' : List Nat),
      sfLoop sfs rds wrs fuel si ri wi left src dst = .done dst' → dst' = dst ++ src := by
  intro fuel
  induction fuel with
  | zero =>
    intro si ri wi left src dst dst' h
    simp only [sfLoop] at h
    exact CRes.noConfusion h
  | succ fuel ih =>
    intro si ri wi left src dst dst' h
    simp only [sfLoop] at h
    by_cases hl : left = 0
    · rw [if_pos hl] at h
      exact sfDrain_done sfs rds wrs Hs Hr fuel si ri wi src dst dst' h
    · rw [if_neg hl] at h
      cases hs : sfs si with
      | err =>
        rw [hs] at h
        exact copy_file_simple_done rds wrs Hr fuel ri wi src dst dst' h
      | ok n =>
        rw [hs] at h
        dsimp only at h
        by_cases hz : min n (min left src.length) = 0
        · rw [if_pos hz] at h
          injection h with h
          have hn := Hs si n hs
          have hlen : src.length = 0 := by
            rcases Nat.min_eq_zero_iff.mp hz with h0 | h0
            · omega
            · rcases Nat.min_eq_zero_iff.mp h0 with h1 | h1
              · omega
              · exact h1
          rw [List.length_eq_zero.mp hlen, List.append_nil, h]
        · rw [if_neg hz] at h
          have h2 := ih (si + 1) ri wi (left - min n (min left src.length))
            (List.drop (min n (min left src.length)) src)
            (dst ++ List.take (min n (min left src.length)) src) dst' h
          rw [h2, List.append_assoc, List.take_append_drop]

/-- C5: whenever ul_copy_file reports success, the destination has received
exactly the source's remaining bytes — covering the zero-length source, a
source larger than the 8 KiB buffer, and a mid-copy sendfile failure with
buffered fallback restarted from the current positions, all as instances.
The kernel-contract hypotheses say a successful sendfile or read with data
remaining moves at least one byte (i.e. the source does not shrink
concurrently). -/
theorem C5_byte_exact (hasSendfile : Bool) (fstatRes : Option (Bool × Nat))
    (sfs : Nat → SRes) (rds : Nat → RRes) (wrs : Nat → WRes)
    (Hs : ∀ i n, sfs i = .ok n → 0 < n)
    (Hr : ∀ i n, rds i = .ok n → 0 < n)
    (fuel : Nat) (src dst dst' : List Nat)
    (h : ul_copy_file hasSendfile fstatRes sfs rds wrs fuel src dst = .done dst') :
    dst' = dst ++ src := by
  unfold ul_copy_file at h
  by_cases hsf : hasSendfile = true
  · rw [if_pos hsf] at h
    cases fstatRes with
    | none => cases h
    | some p =>
      rcases p with ⟨isReg, sz⟩
      dsimp only at h
      by_cases hreg : isReg = true
      · rw [if_pos hreg] at h
        exact sfLoop_done sfs rds wrs Hs Hr fuel 0 0 0 sz src dst dst' h
      · rw [if_neg hreg] at h
        exact copy_file_simple_done rds wrs Hr fuel 0 0 src dst dst' h
  · rw [if_neg hsf] at h
    exact copy_file_simple_done rds wrs Hr fuel 0 0 src dst dst' h

/-- Witness for C5 at a concrete input: a 3-byte regular source whose very
first sendfile call fails, forcing the buffered fallback, which copies the
bytes exactly. -/
theorem C5_witness : ([1, 2, 3] : List Nat) = [] ++ [1, 2, 3] :=
  C5_byte_exact true (some (true, 3)) (fun _ => .err) (fun _ => .ok 8192)
    (fun _ => .ok 8192)
    (fun _ n h => SRes.noConfusion h)
    (fun _ n h => by injection h with h; omega)
    10 [1, 2, 3] [] [1, 2, 3] (by decide)

/-- C9: in the fast path's size-bounded loop, a sendfile call that reports
zero bytes moved while the remaining-bytes counter is still positive makes
the copy stop immediately with success (done), not an error. -/
theorem C9_early_eof (sfs : Nat → SRes) (rds : Nat → RRes) (wrs : Nat → WRes)
    (fuel si ri wi left : Nat) (src dst : List Nat)
    (hl : left ≠ 0) (hz : sfs si = .ok 0) :
    sfLoop sfs rds wrs (fuel + 1) si ri wi left src dst = .done dst := by
  simp only [sfLoop]
  rw [if_neg hl, hz]
  simp

/-- Witness for C9 at a concrete input: counter 7 still positive, sendfile
reports 0, the loop returns success with the destination untouched. -/
theorem C9_witness :
    sfLoop (fun _ => .ok 0) (fun _ => .ok 1) (fun _ => .ok 1) 4 0 0 0 7 [1, 2] [4] =
      .done [4] :=
  C9_early_eof (fun _ => .ok 0) (fun _ => .ok 1) (fun _ => .ok 1) 3 0 0 0 7 [1, 2] [4]
    (by decide) rfl

/-- The retry loop spins forever when every write reports zero bytes: with
the chunk nonempty and a constant zero-byte write oracle, no amount of fuel
reaches a result. -/
theorem flushChunk_zero_spins :
    ∀ (fuel wi : Nat) (c : Nat) (tl dst : List Nat),
      flushChunk (fun _ => .ok 0) fuel wi (c :: tl) dst = .fuelOut := by
  intro fuel
  induction fuel with
  | zero => intro wi c tl dst; rfl
  | succ fuel ih =>
    intro wi c tl dst
    simp only [flushChunk]
    rw [Nat.zero_min, List.drop_zero, List.take_zero]
    exact ih (wi + 1) c tl (dst ++ [])

/-- With positive writes, the flush of a chunk no longer than the fuel
cannot run out of fuel. -/
theorem flushChunk_term (wrs : Nat → WRes)
    (Hw : ∀ i n, wrs i = .ok n → 0 < n) :
    ∀ (fuel wi : Nat) (chunk dst : List Nat), chunk.length ≤ fuel →
      flushChunk wrs fuel wi chunk dst ≠ .fuelOut := by
  intro fuel
  induction fuel with
  | zero =>
    intro wi chunk dst hlen
    have : chunk = [] := List.length_eq_zero.mp (Nat.le_zero.mp hlen)
    rw [this]
    simp only [flushChunk]
    exact fun hx => FlushRes.noConfusion hx
  | succ fuel ih =>
    intro wi chunk dst hlen
    cases chunk with
    | nil =>
      simp only [flushChunk]
      exact fun hx => FlushRes.noConfusion hx
    | cons c tl =>
      simp only [flushChunk]
      cases hw : wrs wi with
      | err => exact fun hx => FlushRes.noConfusion hx
      | ok n =>
        dsimp only
        have hn := Hw wi n hw
        apply ih
        rw [List.length_drop]
        simp only [List.length_cons] at hlen ⊢
        have : 1 ≤ min n (tl.length + 1) := by
          rcases Nat.le_total n (tl.length + 1) with hle | hle
          · rw [Nat.min_eq_left hle]; omega
          · rw [Nat.min_eq_right hle]; omega
        omega

/-- With positive writes, the buffered copy loop with fuel exceeding the
source length cannot run out of fuel: it is total. -/
theorem copy_file_simple_term (rds : Nat → RRes) (wrs : Nat → WRes)
    (Hw : ∀ i n, wrs i = .ok n → 0 < n) :
    ∀ (fuel ri wi : Nat) (src dst : List Nat), src.length < fuel →
      copy_file_simple rds wrs fuel ri wi src dst ≠ .fuelOut := by
  intro fuel
  induction fuel with
  | zero =>
    intro ri wi src dst hlen
    omega
  | succ fuel ih =>
    intro ri wi src dst hlen
    simp only [copy_file_simple]
    cases hr : rds ri with
    | err => exact fun hx => CRes.noConfusion hx
    | ok n =>
      dsimp only
      by_cases hz : min n (min 8192 src.length) = 0
      · rw [if_pos hz]
        exact fun hx => CRes.noConfusion hx
      · rw [if_neg hz]
        cases hf : flushChunk wrs (fuel + 1) wi
            (List.take (min n (min 8192 src.length)) src) dst with
        | fuelOut =>
          exact absurd hf (flushChunk_term wrs Hw (fuel + 1) wi _ dst
            (by rw [List.length_take]; omega))
        | werr => exact fun hx => CRes.noConfusion hx
        | done dst1 wi1 =>
          dsimp only
          apply ih
          rw [List.length_drop]
          omega

/-- C10: the short-write retry loop of copy_file_simple terminates for every
finite source when every write call moves at least one byte (with that
precondition, fuel exceeding the source length always suffices); the
precondition is necessary — a write oracle that always reports zero bytes
makes the loop spin for every amount of fuel on a nonempty source; and each
read chunk is flushed completely (appended whole to the destination) before
the next read. -/
theorem C10_write_retry_termination :
    (∀ (rds : Nat → RRes) (wrs : Nat → WRes),
      (∀ i n, wrs i = .ok n → 0 < n) →
      ∀ (fuel ri wi : Nat) (src dst : List Nat), src.length < fuel →
        copy_file_simple rds wrs fuel ri wi src dst ≠ .fuelOut) ∧
    (∀ fuel : Nat,
      copy_file_simple (fun _ => .ok 8192) (fun _ => .ok 0) fuel 0 0 [7] [] =
        .fuelOut) ∧
    (∀ (wrs : Nat → WRes) (fuel wi : Nat) (chunk dst dst' : List Nat) (wi' : Nat),
      flushChunk wrs fuel wi chunk dst = .done dst' wi' → dst' = dst ++ chunk) := by
  refine ⟨?_, ?_, ?_⟩
  · intro rds wrs Hw fuel ri wi src dst hlen
    exact copy_file_simple_term rds wrs Hw fuel ri wi src dst hlen
  · intro fuel
    cases fuel with
    | zero => rfl
    | succ fuel =>
      have hred : copy_file_simple (fun _ => .ok 8192) (fun _ => .ok 0) (fuel + 1) 0 0 [7] [] =
          (match flushChunk (fun _ => .ok 0) (fuel + 1) 0 [7] [] with
           | .fuelOut => CRes.fuelOut
           | .werr => CRes.werr
           | .done dst' wi' =>
             copy_file_simple (fun _ => .ok 8192) (fun _ => .ok 0) fuel 1 wi' [] dst') := rfl
      rw [hred, flushChunk_zero_spins (fuel + 1) 0 7 [] []]
  · exact flushChunk_done

/-- Witness for C10 at a concrete input: with an all-succeeding write oracle
and fuel 3 > length 1, the loop does not run out of fuel. -/
theorem C10_witness :
    copy_file_simple (fun _ => .ok 8192) (fun _ => .ok 8192) 3 0 0 [5] [] ≠
      .fuelOut :=
  C10_write_retry_termination.1 (fun _ => .ok 8192) (fun _ => .ok 8192)
    (fun _ n h => by injection h with h; omega) 3 0 0 [5] [] (by decide)

end Fileutils
